import Mathlib

/-!
Verification of the Espresso core value-type runtime.

The development shallowly embeds the checked numeric wrappers of
src/includes/core/runtime.hpp (class NumericWrapper and namespace overflow)
and the UTF-8 routines of src/includes/core/runtime.cpp (the helper
utf8_codepoint_count, StringWrapper::at and StringWrapper::is_valid_utf8).

Machine integers of a fixed-width representation T are modelled as
mathematical integers together with a representation descriptor IntRep
recording the bit width and signedness; static_cast wrap-around is modelled
explicitly by IntRep.wrap.  Fallible operations return Except EspErr.
Byte buffers are lists of naturals, each byte below 256 in every run of the
original program.
-/

/-- Error kinds of the runtime exception taxonomy (runtime.hpp, exception
hierarchy).  Only the kinds reachable from the embedded operations appear. -/
inductive EspErr where
  | overflowError
  | divisionByZeroError
  | moduloByZeroError
  | encodingError
  | stringIndexError
  | castingError
  deriving DecidableEq

deriving instance DecidableEq for Except

/-- Descriptor of a fixed-width integral representation T: bit width and
signedness.  The concrete instantiations in runtime.hpp are int8_t, int16_t,
int32_t, int64_t and their unsigned counterparts. -/
structure IntRep where
  bits : Nat
  signed : Bool
  deriving DecidableEq

/-- Value of std::numeric_limits of T, member max(). -/
def IntRep.maxVal (R : IntRep) : Int :=
  if R.signed then 2 ^ (R.bits - 1) - 1 else 2 ^ R.bits - 1

/-- Value of std::numeric_limits of T, members min() and lowest(), which
coincide for integral T. -/
def IntRep.minVal (R : IntRep) : Int :=
  if R.signed then -(2 ^ (R.bits - 1)) else 0

/-- The set of mathematical values representable in T. -/
def IntRep.inRange (R : IntRep) (v : Int) : Prop :=
  R.minVal ≤ v ∧ v ≤ R.maxVal

instance (R : IntRep) (v : Int) : Decidable (R.inRange v) := by
  unfold IntRep.inRange; infer_instance

/-- Result of static_cast of an arbitrary integer to T: reduction modulo
2 to the bits, placed in the representation range (two-complement for
signed T). -/
def IntRep.wrap (R : IntRep) (v : Int) : Int :=
  let r := v % (2 : Int) ^ R.bits
  if R.signed = true ∧ (2 : Int) ^ (R.bits - 1) ≤ r then r - (2 : Int) ^ R.bits else r

/-- The int8_t representation. -/
def int8Rep : IntRep := ⟨8, true⟩

/-- The int32_t representation. -/
def int32Rep : IntRep := ⟨32, true⟩

/-- The int64_t representation. -/
def int64Rep : IntRep := ⟨64, true⟩

/-- The uint32_t representation. -/
def uint32Rep : IntRep := ⟨32, false⟩

/-- The uint64_t representation. -/
def uint64Rep : IntRep := ⟨64, false⟩

/-- Embeds overflow::add_overflow of runtime.hpp (lines 438 to 450),
integral branch: the two early returns reporting overflow.  The
subtractions max() - b and min() - b never leave the representation range
under the guards b above zero and b below zero, so integer subtraction
models the machine subtraction exactly. -/
def add_overflow (R : IntRep) (a b : Int) : Bool :=
  if 0 < b ∧ R.maxVal - b < a then true
  else if b < 0 ∧ a < R.minVal - b then true
  else false

/-- Embeds overflow::sub_overflow of runtime.hpp (lines 453 to 464),
integral branch. -/
def sub_overflow (R : IntRep) (a b : Int) : Bool :=
  if b < 0 ∧ R.maxVal + b < a then true
  else if 0 < b ∧ a < R.minVal + b then true
  else false

/-- Embeds overflow::mul_overflow of runtime.hpp (lines 467 to 489),
integral branch; the inner divisions are the machine divisions of T, which
truncate toward zero (Int.tdiv). -/
def mul_overflow (R : IntRep) (a b : Int) : Bool :=
  if 0 < a then
    if 0 < b then decide (Int.tdiv R.maxVal b < a)
    else if b < 0 then decide (b < Int.tdiv R.minVal a)
    else false
  else if a < 0 then
    if 0 < b then decide (a < Int.tdiv R.minVal b)
    else if b < 0 then decide (a < Int.tdiv R.maxVal b)
    else false
  else false

/-- Embeds NumericWrapper operator + (runtime.hpp lines 493 to 500): check
add_overflow, then commit the machine sum. -/
def numAdd (R : IntRep) (a b : Int) : Except EspErr Int :=
  if add_overflow R a b then Except.error EspErr.overflowError
  else Except.ok (R.wrap (a + b))

/-- Embeds NumericWrapper operator - (runtime.hpp lines 502 to 509). -/
def numSub (R : IntRep) (a b : Int) : Except EspErr Int :=
  if sub_overflow R a b then Except.error EspErr.overflowError
  else Except.ok (R.wrap (a - b))

/-- Embeds NumericWrapper operator * (runtime.hpp lines 511 to 518). -/
def numMul (R : IntRep) (a b : Int) : Except EspErr Int :=
  if mul_overflow R a b then Except.error EspErr.overflowError
  else Except.ok (R.wrap (a * b))

/-- Embeds NumericWrapper operator / (runtime.hpp lines 520 to 532):
divisor zero throws DivisionByZeroError; for signed T the pair of the
minimum value and minus one throws OverflowError; otherwise the machine
division truncates toward zero. -/
def numDiv (R : IntRep) (a b : Int) : Except EspErr Int :=
  if b = 0 then Except.error EspErr.divisionByZeroError
  else if R.signed = true ∧ a = R.minVal ∧ b = -1 then Except.error EspErr.overflowError
  else Except.ok (Int.tdiv a b)

/-- Embeds NumericWrapper operator % (runtime.hpp lines 534 to 546):
divisor zero throws ModuloByZeroError; for signed T the pair of the minimum
value and minus one returns zero; otherwise the machine remainder pairs
with truncating division. -/
def numMod (R : IntRep) (a b : Int) : Except EspErr Int :=
  if b = 0 then Except.error EspErr.moduloByZeroError
  else if R.signed = true ∧ a = R.minVal ∧ b = -1 then Except.ok 0
  else Except.ok (Int.tmod a b)

/-- Embeds NumericWrapper operator << (runtime.hpp lines 683 to 691): a
shift count below zero or at least the bit width throws OverflowError;
otherwise the shifted value is committed modulo the representation. -/
def numShl (R : IntRep) (a : Int) (n : Int) : Except EspErr Int :=
  if n < 0 ∨ (R.bits : Int) ≤ n then Except.error EspErr.overflowError
  else Except.ok (R.wrap (a * 2 ^ n.toNat))

/-- Embeds NumericWrapper operator >> (runtime.hpp lines 693 to 701); the
in-range shift of a signed value is the arithmetic shift, floor division by
a power of two. -/
def numShr (R : IntRep) (a : Int) (n : Int) : Except EspErr Int :=
  if n < 0 ∨ (R.bits : Int) ≤ n then Except.error EspErr.overflowError
  else Except.ok (Int.fdiv a (2 ^ n.toNat))

/-!
Compound assignment.  The members operator +=, -=, *=, /=, %= of
NumericWrapper (runtime.hpp lines 564 to 621) mutate the stored field
value.  Each is embedded as a function from the stored value and the
operand to a pair: the exception thrown, if any, and the stored value at
the moment the member exits (by return or by throw).  The translation
records the position of every write to value relative to every throw in
the source text.
-/

/-- Embeds NumericWrapper operator += (runtime.hpp lines 564 to 572): the
throw precedes the write, so on overflow the pair carries the old value. -/
def addAssign (R : IntRep) (v b : Int) : Option EspErr × Int :=
  if add_overflow R v b then (some EspErr.overflowError, v)
  else (none, R.wrap (v + b))

/-- Embeds NumericWrapper operator -= (runtime.hpp lines 574 to 582). -/
def subAssign (R : IntRep) (v b : Int) : Option EspErr × Int :=
  if sub_overflow R v b then (some EspErr.overflowError, v)
  else (none, R.wrap (v - b))

/-- Embeds NumericWrapper operator *= (runtime.hpp lines 584 to 592). -/
def mulAssign (R : IntRep) (v b : Int) : Option EspErr × Int :=
  if mul_overflow R v b then (some EspErr.overflowError, v)
  else (none, R.wrap (v * b))

/-- Embeds NumericWrapper operator /= (runtime.hpp lines 594 to 606): both
throws precede the write to value. -/
def divAssign (R : IntRep) (v b : Int) : Option EspErr × Int :=
  if b = 0 then (some EspErr.divisionByZeroError, v)
  else if R.signed = true ∧ v = R.minVal ∧ b = -1 then (some EspErr.overflowError, v)
  else (none, Int.tdiv v b)

/-- Embeds NumericWrapper operator %= (runtime.hpp lines 608 to 621): the
throw precedes the write; the special case of the minimum value and minus
one writes zero and returns normally. -/
def modAssign (R : IntRep) (v b : Int) : Option EspErr × Int :=
  if b = 0 then (some EspErr.moduloByZeroError, v)
  else if R.signed = true ∧ v = R.minVal ∧ b = -1 then (none, 0)
  else (none, Int.tmod v b)

/-!
Helper lemmas about the representation model.
-/

/-- A value already in the representation range is unchanged by the
static_cast wrap. -/
lemma IntRep.wrap_eq_self (R : IntRep) (hb : 0 < R.bits) {v : Int}
    (h : R.inRange v) : R.wrap v = v := by
  obtain ⟨h1, h2⟩ := h
  unfold IntRep.wrap
  cases hs : R.signed with
  | false =>
    simp only [IntRep.minVal, IntRep.maxVal, hs, Bool.false_eq_true, if_false] at h1 h2
    have hpos : (0 : Int) < 2 ^ R.bits := by positivity
    simp only [hs, Bool.false_eq_true, false_and, if_false]
    exact Int.emod_eq_of_lt h1 (by omega)
  | true =>
    simp only [IntRep.minVal, IntRep.maxVal, hs, if_true] at h1 h2
    obtain ⟨k, hk⟩ : ∃ k, R.bits = k + 1 := ⟨R.bits - 1, by omega⟩
    have hk1 : R.bits - 1 = k := by omega
    have hpow : (2 : Int) ^ R.bits = 2 ^ k * 2 := by rw [hk]; exact pow_succ 2 k
    have hkpos : (0 : Int) < 2 ^ k := by positivity
    rw [hk1] at h1 h2
    simp only [hs, hk1, true_and]
    rcases le_or_lt 0 v with hv | hv
    · have hmod : v % (2 : Int) ^ R.bits = v :=
        Int.emod_eq_of_lt hv (by rw [hpow]; omega)
      rw [hmod]
      rw [if_neg (by omega)]
    · have hmod : v % (2 : Int) ^ R.bits = v + 2 ^ k * 2 := by
        have e1 : (v + 2 ^ k * 2) % (2 : Int) ^ R.bits = v % (2 : Int) ^ R.bits := by
          rw [hpow]
          exact Int.add_mul_emod_self_left v (2 ^ k * 2) 1 ▸ by ring_nf
        rw [← e1]
        exact Int.emod_eq_of_lt (by omega) (by rw [hpow]; omega)
      rw [hmod, if_pos (by omega), hpow]
      ring

/-- The condition of add_overflow as a proposition. -/
lemma add_overflow_iff (R : IntRep) (a b : Int) :
    add_overflow R a b = true ↔
      (0 < b ∧ R.maxVal - b < a) ∨ (b < 0 ∧ a < R.minVal - b) := by
  unfold add_overflow
  split
  · simp_all
  · split
    · simp_all
    · simp_all

/-- An addition that passes the overflow check lands in the representation
range. -/
lemma add_in_range (R : IntRep) {a b : Int}
    (ha : R.inRange a) (hb : R.inRange b)
    (hno : ¬ ((0 < b ∧ R.maxVal - b < a) ∨ (b < 0 ∧ a < R.minVal - b))) :
    R.inRange (a + b) := by
  obtain ⟨ha1, ha2⟩ := ha
  obtain ⟨hb1, hb2⟩ := hb
  constructor <;> omega

/-!
Claim theorems for the numeric wrapper.
-/

/-- C1: for every representation, divide by zero fails with
DivisionByZeroError and modulo by zero fails with ModuloByZeroError, for
every dividend; for every signed representation, dividing the minimum
value by minus one fails with OverflowError while the modulo of the same
pair returns zero and never fails. -/
theorem c1_div_mod_edge (R : IntRep) :
    (∀ a : Int, numDiv R a 0 = Except.error EspErr.divisionByZeroError
      ∧ numMod R a 0 = Except.error EspErr.moduloByZeroError)
    ∧ (R.signed = true →
        numDiv R R.minVal (-1) = Except.error EspErr.overflowError
        ∧ numMod R R.minVal (-1) = Except.ok 0) := by
  constructor
  · intro a
    constructor
    · unfold numDiv
      simp
    · unfold numMod
      simp
  · intro hs
    constructor
    · unfold numDiv
      rw [if_neg (by omega), if_pos ⟨hs, rfl, rfl⟩]
    · unfold numMod
      rw [if_neg (by omega), if_pos ⟨hs, rfl, rfl⟩]

/-- Witness for C1 at the int8_t representation: minimum value -128. -/
theorem c1_div_mod_edge_witness :
    numDiv int8Rep (-128) (-1) = Except.error EspErr.overflowError
    ∧ numMod int8Rep (-128) (-1) = Except.ok 0
    ∧ numDiv int8Rep 7 0 = Except.error EspErr.divisionByZeroError
    ∧ numMod int8Rep 7 0 = Except.error EspErr.moduloByZeroError := by
  have hmin : int8Rep.minVal = -128 := by decide
  have h2 := (c1_div_mod_edge int8Rep).2 rfl
  rw [hmin] at h2
  exact ⟨h2.1, h2.2, ((c1_div_mod_edge int8Rep).1 7).1, ((c1_div_mod_edge int8Rep).1 7).2⟩

/-- C2: for in-range operands, addition fails with OverflowError exactly
under the documented range condition, and otherwise commits the exact
mathematical sum. -/
theorem c2_add_exact (R : IntRep) (hb : 0 < R.bits) (a b : Int)
    (ha : R.inRange a) (hbr : R.inRange b) :
    (numAdd R a b = Except.error EspErr.overflowError ↔
      (0 < b ∧ R.maxVal - b < a) ∨ (b < 0 ∧ a < R.minVal - b))
    ∧ (¬ ((0 < b ∧ R.maxVal - b < a) ∨ (b < 0 ∧ a < R.minVal - b)) →
        numAdd R a b = Except.ok (a + b)) := by
  constructor
  · unfold numAdd
    by_cases h : add_overflow R a b = true
    · rw [if_pos h]
      simp only [true_iff, (add_overflow_iff R a b).mp h]
    · rw [if_neg (by simp [h])]
      constructor
      · intro hcontra
        exact absurd hcontra (by simp)
      · intro hcond
        exact absurd ((add_overflow_iff R a b).mpr hcond) h
  · intro hno
    unfold numAdd
    have hov : ¬ (add_overflow R a b = true) := fun hc => hno ((add_overflow_iff R a b).mp hc)
    rw [if_neg (by simp [hov])]
    rw [R.wrap_eq_self hb (add_in_range R ha hbr hno)]

/-- Witness for C2 at int8_t with operands 100 and 3. -/
theorem c2_add_exact_witness : numAdd int8Rep 100 3 = Except.ok 103 := by
  have h := (c2_add_exact int8Rep (by decide) 100 3 (by decide) (by decide)).2 (by decide)
  simpa using h

/-- C6: shifts fail with OverflowError exactly when the count is negative
or at least the bit width; in particular the counts equal to the bit width
and minus one both fail. -/
theorem c6_shift_bounds (R : IntRep) (a n : Int) :
    (numShl R a n = Except.error EspErr.overflowError ↔ (n < 0 ∨ (R.bits : Int) ≤ n))
    ∧ (numShr R a n = Except.error EspErr.overflowError ↔ (n < 0 ∨ (R.bits : Int) ≤ n))
    ∧ numShl R a (R.bits : Int) = Except.error EspErr.overflowError
    ∧ numShl R a (-1) = Except.error EspErr.overflowError := by
  refine ⟨?_, ?_, ?_, ?_⟩
  · unfold numShl
    split
    · simp_all
    · simp_all
  · unfold numShr
    split
    · simp_all
    · simp_all
  · unfold numShl
    rw [if_pos (Or.inr (le_refl _))]
  · unfold numShl
    rw [if_pos (Or.inl (by omega))]

/-- C9: every compound assignment that throws leaves the stored value
unchanged; the pair returned by each embedded member carries the stored
value at exit, and on any exception it equals the entry value. -/
theorem c9_compound_atomic (R : IntRep) (v b : Int) :
    ((addAssign R v b).1.isSome = true → (addAssign R v b).2 = v)
    ∧ ((subAssign R v b).1.isSome = true → (subAssign R v b).2 = v)
    ∧ ((mulAssign R v b).1.isSome = true → (mulAssign R v b).2 = v)
    ∧ ((divAssign R v b).1.isSome = true → (divAssign R v b).2 = v)
    ∧ ((modAssign R v b).1.isSome = true → (modAssign R v b).2 = v) := by
  refine ⟨?_, ?_, ?_, ?_, ?_⟩
  · unfold addAssign
    split <;> simp
  · unfold subAssign
    split <;> simp
  · unfold mulAssign
    split <;> simp
  · unfold divAssign
    split
    · simp
    · split <;> simp
  · unfold modAssign
    split
    · simp
    · split <;> simp

/-- Witness for C9: the overflowing division assignment at int8_t keeps
the stored value -128. -/
theorem c9_compound_atomic_witness :
    (divAssign int8Rep (-128) (-1)).1.isSome = true
    ∧ (divAssign int8Rep (-128) (-1)).2 = -128 :=
  ⟨by decide, (c9_compound_atomic int8Rep (-128) (-1)).2.2.2.1 (by decide)⟩

/-!
UTF-8 routines of src/includes/core/runtime.cpp.  Each of the three source
loops steps through the byte buffer one encoded sequence at a time: it
classifies the leading byte by its high bits into an expected width of one
to four (throwing or rejecting an unrecognized pattern), checks that the
buffer holds the whole sequence, checks every continuation byte against
the pattern of two high bits one-zero, and advances past the sequence.
The three loops are embedded independently, mirroring the three separate
function bodies, so that their agreement is a theorem and not an artifact
of shared code.  In each embedding the width computed from the leading
byte is bound locally, width zero standing for the unrecognized pattern;
the continuation bytes of the current sequence are the take of the tail
and the loop advance is the drop.
-/

/-- Embeds the static helper utf8_codepoint_count of runtime.cpp (lines 18
to 41): counts decoded codepoints, throwing EncodingError at the first
invalid leading byte, truncated sequence or invalid continuation byte. -/
def utf8_codepoint_count : List Nat → Except EspErr Nat
  | [] => Except.ok 0
  | c :: rest =>
    let w : Nat :=
      if c < 0x80 then 1
      else if c &&& 0xE0 = 0xC0 then 2
      else if c &&& 0xF0 = 0xE0 then 3
      else if c &&& 0xF8 = 0xF0 then 4
      else 0
    if w = 0 then Except.error EspErr.encodingError
    else if rest.length < w - 1 then Except.error EspErr.encodingError
    else if (rest.take (w - 1)).all (fun cc => decide (cc &&& 0xC0 = 0x80)) then
      (utf8_codepoint_count (rest.drop (w - 1))).map (· + 1)
    else Except.error EspErr.encodingError
termination_by l => l.length
decreasing_by simp [List.length_drop]; omega

/-- Embeds StringWrapper::is_valid_utf8 of runtime.cpp (lines 151 to 176):
the same scan returning a boolean instead of throwing. -/
def is_valid_utf8 : List Nat → Bool
  | [] => true
  | c :: rest =>
    let w : Nat :=
      if c < 0x80 then 1
      else if c &&& 0xE0 = 0xC0 then 2
      else if c &&& 0xF0 = 0xE0 then 3
      else if c &&& 0xF8 = 0xF0 then 4
      else 0
    if w = 0 then false
    else if rest.length < w - 1 then false
    else if (rest.take (w - 1)).all (fun cc => decide (cc &&& 0xC0 = 0x80)) then
      is_valid_utf8 (rest.drop (w - 1))
    else false
termination_by l => l.length
decreasing_by simp [List.length_drop]; omega

/-- Embeds StringWrapper::at of runtime.cpp (lines 96 to 148): decodes
sequences from the front, accumulating six payload bits per continuation
byte onto the payload bits of the leading byte, and returns the codepoint
of the sequence whose running index equals the requested index; a buffer
exhausted before that throws StringIndexError.  The running index of the
source loop is embedded by decrementing the requested index at each
decoded sequence. -/
def strAt : List Nat → Nat → Except EspErr Nat
  | [], _ => Except.error EspErr.stringIndexError
  | c :: rest, index =>
    let w : Nat :=
      if c < 0x80 then 1
      else if c &&& 0xE0 = 0xC0 then 2
      else if c &&& 0xF0 = 0xE0 then 3
      else if c &&& 0xF8 = 0xF0 then 4
      else 0
    let start : Nat :=
      if c < 0x80 then c
      else if c &&& 0xE0 = 0xC0 then c &&& 0x1F
      else if c &&& 0xF0 = 0xE0 then c &&& 0x0F
      else c &&& 0x07
    if w = 0 then Except.error EspErr.encodingError
    else if rest.length < w - 1 then Except.error EspErr.encodingError
    else if (rest.take (w - 1)).all (fun cc => decide (cc &&& 0xC0 = 0x80)) then
      if index = 0 then
        Except.ok ((rest.take (w - 1)).foldl (fun cp cc => (cp <<< 6) ||| (cc &&& 0x3F)) start)
      else strAt (rest.drop (w - 1)) (index - 1)
    else Except.error EspErr.encodingError
termination_by l _ => l.length
decreasing_by simp [List.length_drop]; omega

/-- Embeds the StringWrapper class of runtime.hpp and runtime.cpp: the
single field data holds the byte buffer; the constructors (runtime.cpp
lines 44 to 50) store the argument bytes unchanged and perform no
validation. -/
structure StringWrapper where
  data : List Nat

/-- Embeds StringWrapper::length_bytes (runtime.cpp lines 57 to 59). -/
def StringWrapper.length_bytes (w : StringWrapper) : Nat := w.data.length

/-- Embeds StringWrapper::length (runtime.cpp lines 61 to 63): the UTF-8
codepoint count of the stored bytes. -/
def StringWrapper.length (w : StringWrapper) : Except EspErr Nat :=
  utf8_codepoint_count w.data

/-- Embeds the member StringWrapper::at applied to the stored bytes. -/
def StringWrapper.charAt (w : StringWrapper) (i : Nat) : Except EspErr Nat :=
  strAt w.data i
/-!
Explicit conversion between representations.  The member operator Target
of NumericWrapper (runtime.hpp lines 417 to 431) guards the static_cast
with two comparisons of the stored value against the numeric limits of the
target type.  In the source language those comparisons are subject to the
usual arithmetic conversions: both operands are first promoted (types
narrower than the 32-bit int promote to int), then brought to a common
type — the operand of lower rank converts to the type of higher rank, an
operand of signed type converts to the unsigned type of equal or higher
rank, and a signed type of higher rank that can represent every value of
the unsigned operand type absorbs it.  The conversion of a value to the
common type reduces it modulo the width of that type.  The embedding
models this machinery explicitly, on the LP64 data model of the source
platform (int of 32 bits, long and long long of 64 bits).
-/

/-- Integral promotion: representations narrower than int promote to the
32-bit signed int, which can represent all their values. -/
def IntRep.promote (R : IntRep) : IntRep :=
  if R.bits < 32 then ⟨32, true⟩ else R

/-- Common type of two promoted operands under the usual arithmetic
conversions. -/
def commonRep (A B : IntRep) : IntRep :=
  let Ap := A.promote
  let Bp := B.promote
  if Ap.signed = Bp.signed then (if Bp.bits ≤ Ap.bits then Ap else Bp)
  else
    let S := if Ap.signed then Ap else Bp
    let U := if Ap.signed then Bp else Ap
    if S.bits ≤ U.bits then U else S

/-- Comparison x of representation A below y of representation B, as the
source language evaluates it: both sides convert to the common type first. -/
def cppLt (A B : IntRep) (x y : Int) : Bool :=
  let C := commonRep A B
  decide (C.wrap x < C.wrap y)

/-- Comparison x of representation A above y of representation B under the
usual arithmetic conversions. -/
def cppGt (A B : IntRep) (x y : Int) : Bool :=
  let C := commonRep A B
  decide (C.wrap y < C.wrap x)

/-- Embeds the member operator Target of NumericWrapper (runtime.hpp lines
417 to 431) for integral source and target representations: an identical
target returns the value; otherwise the value is compared against the
limits of the target type under the usual arithmetic conversions and, when
both guards pass, static_cast commits the value reduced to the target
representation. -/
def convertTo (T Tgt : IntRep) (v : Int) : Except EspErr Int :=
  if T = Tgt then Except.ok v
  else if cppGt T Tgt v Tgt.maxVal then Except.error EspErr.overflowError
  else if cppLt T Tgt v Tgt.minVal then Except.error EspErr.overflowError
  else Except.ok (Tgt.wrap v)


/-!
Proof-side characterization of the three scans.  The width and payload of
a leading byte are named here once, for the lemmas only; each embedded
function keeps its own inline copy of the classification, as the source
does.
-/

/-- Classification of a leading byte into the expected sequence width,
zero standing for an unrecognized pattern. -/
def utf8SeqWidth (c : Nat) : Nat :=
  if c < 0x80 then 1
  else if c &&& 0xE0 = 0xC0 then 2
  else if c &&& 0xF0 = 0xE0 then 3
  else if c &&& 0xF8 = 0xF0 then 4
  else 0

/-- Payload bits carried by a leading byte. -/
def utf8LeadPayload (c : Nat) : Nat :=
  if c < 0x80 then c
  else if c &&& 0xE0 = 0xC0 then c &&& 0x1F
  else if c &&& 0xF0 = 0xE0 then c &&& 0x0F
  else c &&& 0x07

/-- One step of the counting decoder, phrased through the named width. -/
lemma utf8cc_cons (c : Nat) (rest : List Nat) :
    utf8_codepoint_count (c :: rest) =
      (if utf8SeqWidth c = 0 then Except.error EspErr.encodingError
       else if rest.length < utf8SeqWidth c - 1 then Except.error EspErr.encodingError
       else if (rest.take (utf8SeqWidth c - 1)).all (fun cc => decide (cc &&& 0xC0 = 0x80)) then
         (utf8_codepoint_count (rest.drop (utf8SeqWidth c - 1))).map (· + 1)
       else Except.error EspErr.encodingError) := by
  rw [utf8_codepoint_count]
  simp only [utf8SeqWidth]

/-- One step of the validator, phrased through the named width. -/
lemma is_valid_utf8_cons (c : Nat) (rest : List Nat) :
    is_valid_utf8 (c :: rest) =
      (if utf8SeqWidth c = 0 then false
       else if rest.length < utf8SeqWidth c - 1 then false
       else if (rest.take (utf8SeqWidth c - 1)).all (fun cc => decide (cc &&& 0xC0 = 0x80)) then
         is_valid_utf8 (rest.drop (utf8SeqWidth c - 1))
       else false) := by
  rw [is_valid_utf8]
  simp only [utf8SeqWidth]

/-- One step of indexed access, phrased through the named width and
payload. -/
lemma strAt_cons (c : Nat) (rest : List Nat) (index : Nat) :
    strAt (c :: rest) index =
      (if utf8SeqWidth c = 0 then Except.error EspErr.encodingError
       else if rest.length < utf8SeqWidth c - 1 then Except.error EspErr.encodingError
       else if (rest.take (utf8SeqWidth c - 1)).all (fun cc => decide (cc &&& 0xC0 = 0x80)) then
         if index = 0 then
           Except.ok ((rest.take (utf8SeqWidth c - 1)).foldl
             (fun cp cc => (cp <<< 6) ||| (cc &&& 0x3F)) (utf8LeadPayload c))
         else strAt (rest.drop (utf8SeqWidth c - 1)) (index - 1)
       else Except.error EspErr.encodingError) := by
  rw [strAt]
  simp only [utf8SeqWidth, utf8LeadPayload]

/-- The validator and the counting decoder agree on every buffer: the scan
either validates and counts, or rejects and throws EncodingError.  Proved
by joint induction over the buffer, bounded by its length. -/
lemma count_valid_aux :
    ∀ (n : Nat) (s : List Nat), s.length ≤ n →
      (is_valid_utf8 s = true ∧ ∃ m, utf8_codepoint_count s = Except.ok m) ∨
      (is_valid_utf8 s = false
        ∧ utf8_codepoint_count s = Except.error EspErr.encodingError) := by
  intro n
  induction n with
  | zero =>
    intro s hs
    have hnil : s = [] := List.length_eq_zero.mp (Nat.le_zero.mp hs)
    subst hnil
    exact Or.inl ⟨by rw [is_valid_utf8], 0, by rw [utf8_codepoint_count]⟩
  | succ n ih =>
    intro s hs
    cases s with
    | nil => exact Or.inl ⟨by rw [is_valid_utf8], 0, by rw [utf8_codepoint_count]⟩
    | cons c rest =>
      rw [utf8cc_cons, is_valid_utf8_cons]
      by_cases h0 : utf8SeqWidth c = 0
      · rw [if_pos h0, if_pos h0]
        exact Or.inr ⟨rfl, rfl⟩
      · rw [if_neg h0, if_neg h0]
        by_cases htr : rest.length < utf8SeqWidth c - 1
        · rw [if_pos htr, if_pos htr]
          exact Or.inr ⟨rfl, rfl⟩
        · rw [if_neg htr, if_neg htr]
          by_cases hall :
              (rest.take (utf8SeqWidth c - 1)).all (fun cc => decide (cc &&& 0xC0 = 0x80)) = true
          · rw [if_pos hall, if_pos hall]
            have hdrop : (rest.drop (utf8SeqWidth c - 1)).length ≤ n := by
              have hr : rest.length ≤ n := by simp [List.length_cons] at hs; omega
              simp [List.length_drop]; omega
            rcases ih _ hdrop with ⟨hv, m, hc⟩ | ⟨hv, hc⟩
            · exact Or.inl ⟨hv, m + 1, by rw [hc]; rfl⟩
            · exact Or.inr ⟨hv, by rw [hc]; rfl⟩
          · rw [if_neg hall, if_neg hall]
            exact Or.inr ⟨rfl, rfl⟩

/-- The validator and the counting decoder agree on every buffer. -/
lemma count_valid (s : List Nat) :
    (is_valid_utf8 s = true ∧ ∃ m, utf8_codepoint_count s = Except.ok m) ∨
    (is_valid_utf8 s = false
      ∧ utf8_codepoint_count s = Except.error EspErr.encodingError) :=
  count_valid_aux s.length s (le_refl _)

/-- Indexed access against the count: on a buffer whose counted prefix
covers the requested index, access ignores any appended suffix and
succeeds; on a fully counted buffer, an index at or past the count gives
StringIndexError.  Proved by induction bounded by the buffer length. -/
lemma strAt_count_aux :
    ∀ (n : Nat) (p : List Nat), p.length ≤ n →
      ∀ m, utf8_codepoint_count p = Except.ok m →
        ∀ (i : Nat) (s : List Nat),
          (i < m → strAt (p ++ s) i = strAt p i ∧ ∃ cp, strAt p i = Except.ok cp)
          ∧ (m ≤ i → strAt p i = Except.error EspErr.stringIndexError) := by
  intro n
  induction n with
  | zero =>
    intro p hp m hm i s
    have hnil : p = [] := List.length_eq_zero.mp (Nat.le_zero.mp hp)
    subst hnil
    rw [utf8_codepoint_count] at hm
    have hm0 : m = 0 := by simp at hm; omega
    subst hm0
    exact ⟨fun hlt => absurd hlt (by omega), fun _ => by rw [strAt]⟩
  | succ n ih =>
    intro p hp m hm i s
    cases p with
    | nil =>
      rw [utf8_codepoint_count] at hm
      have hm0 : m = 0 := by simp at hm; omega
      subst hm0
      exact ⟨fun hlt => absurd hlt (by omega), fun _ => by rw [strAt]⟩
    | cons c rest =>
      rw [utf8cc_cons] at hm
      by_cases h0 : utf8SeqWidth c = 0
      · rw [if_pos h0] at hm; cases hm
      · rw [if_neg h0] at hm
        by_cases htr : rest.length < utf8SeqWidth c - 1
        · rw [if_pos htr] at hm; cases hm
        · rw [if_neg htr] at hm
          by_cases hall :
              (rest.take (utf8SeqWidth c - 1)).all (fun cc => decide (cc &&& 0xC0 = 0x80)) = true
          · rw [if_pos hall] at hm
            cases hrec : utf8_codepoint_count (rest.drop (utf8SeqWidth c - 1)) with
            | error e => rw [hrec] at hm; cases hm
            | ok m0 =>
              rw [hrec] at hm
              have hm0 : m = m0 + 1 := by simp [Except.map] at hm; omega
              subst hm0
              have hlen : (rest.drop (utf8SeqWidth c - 1)).length ≤ n := by
                have hr : rest.length ≤ n := by simp [List.length_cons] at hp; omega
                simp [List.length_drop]; omega
              have IH := ih _ hlen m0 hrec
              have htr2 : ¬ ((rest ++ s).length < utf8SeqWidth c - 1) := by
                simp [List.length_append]; omega
              have htake : (rest ++ s).take (utf8SeqWidth c - 1) = rest.take (utf8SeqWidth c - 1) :=
                List.take_append_of_le_length (by omega)
              have hdrop :
                  (rest ++ s).drop (utf8SeqWidth c - 1) = rest.drop (utf8SeqWidth c - 1) ++ s :=
                List.drop_append_of_le_length (by omega)
              constructor
              · intro hlt
                rw [List.cons_append, strAt_cons, strAt_cons]
                rw [if_neg h0, if_neg h0, if_neg htr, if_neg htr2, htake, if_pos hall, if_pos hall]
                by_cases hi : i = 0
                · subst hi
                  rw [if_pos rfl, if_pos rfl]
                  exact ⟨rfl, _, rfl⟩
                · rw [if_neg hi, if_neg hi, hdrop]
                  have hi2 : i - 1 < m0 := by omega
                  exact ⟨((IH (i - 1) s).1 hi2).1, ((IH (i - 1) s).1 hi2).2⟩
              · intro hge
                have hi : ¬ (i = 0) := by omega
                rw [strAt_cons, if_neg h0, if_neg htr, if_pos hall, if_neg hi]
                exact (IH (i - 1) s).2 (by omega)
          · rw [if_neg hall] at hm; cases hm

/-!
Claim theorems for the text type and the conversions.
-/

/-- C3: evaluation of the conversion guard at the failing input.  The
stored value -1 of int32_t converted to uint32_t passes both guards,
because the usual arithmetic conversions carry both comparisons out in
uint32_t, where -1 converts to 4294967295; the member therefore returns
4294967295 instead of throwing OverflowError, although -1 lies strictly
below the minimum of the target range. -/
theorem c3_convert_negative_to_unsigned :
    convertTo int32Rep uint32Rep (-1) = Except.ok 4294967295
    ∧ (-1 : Int) < uint32Rep.minVal
    ∧ convertTo int64Rep uint32Rep (-1) = Except.error EspErr.overflowError := by
  refine ⟨by decide, by decide, by decide⟩

/-- C4 counterexample: the constructor accepts the byte 255, which no
valid UTF-8 buffer contains; the constructed wrapper is non-empty and its
stored buffer fails validation, so construction neither validated nor
failed. -/
theorem c4_construction_counterexample :
    (StringWrapper.mk [0xFF]).data = [0xFF]
    ∧ is_valid_utf8 [0xFF] = false
    ∧ (StringWrapper.mk [0xFF]).length_bytes = 1 := by
  refine ⟨rfl, by simp +decide [is_valid_utf8], rfl⟩

/-- C4 amended: construction stores the given byte buffer unchanged and
never fails, even when the buffer is not valid UTF-8; validity is instead
checked lazily by the codepoint operations, and the codepoint count of a
stored buffer that fails validation throws EncodingError. -/
theorem c4_amended_lazy_validation (bs : List Nat) :
    (StringWrapper.mk bs).data = bs
    ∧ (is_valid_utf8 bs = false →
        (StringWrapper.mk bs).length = Except.error EspErr.encodingError) := by
  refine ⟨rfl, fun hinv => ?_⟩
  rcases count_valid bs with ⟨hv, _⟩ | ⟨_, hc⟩
  · rw [hv] at hinv; cases hinv
  · exact hc

/-- Witness for the amended C4 at the buffer holding the single byte 255. -/
theorem c4_amended_lazy_validation_witness :
    (StringWrapper.mk [0xFF]).data = [0xFF]
    ∧ (StringWrapper.mk [0xFF]).length = Except.error EspErr.encodingError :=
  ⟨(c4_amended_lazy_validation [0xFF]).1,
    (c4_amended_lazy_validation [0xFF]).2 (by simp +decide [is_valid_utf8])⟩

/-- C5: the validator accepts exactly the byte sequences on which the
codepoint-counting decoder succeeds. -/
theorem c5_validator_decoder_agree (s : List Nat) :
    is_valid_utf8 s = true ↔ ∃ m, utf8_codepoint_count s = Except.ok m := by
  rcases count_valid s with ⟨hv, hm⟩ | ⟨hv, hc⟩
  · exact ⟨fun _ => hm, fun _ => hv⟩
  · constructor
    · intro h
      rw [hv] at h
      cases h
    · rintro ⟨m, hm⟩
      rw [hc] at hm
      cases hm
/-- C8: the wrapper built from the five UTF-8 bytes of the word cafe with
the acute e decodes four codepoints while storing five bytes. -/
theorem c8_cafe_lengths :
    (StringWrapper.mk [0x63, 0x61, 0x66, 0xC3, 0xA9]).length = Except.ok 4
    ∧ (StringWrapper.mk [0x63, 0x61, 0x66, 0xC3, 0xA9]).length_bytes = 5 := by
  constructor
  · show utf8_codepoint_count [0x63, 0x61, 0x66, 0xC3, 0xA9] = Except.ok 4
    simp +decide [utf8_codepoint_count]
  · rfl

/-- C10: indexed access validates only the bytes it scans.  When some
prefix of the buffer counts exactly index-plus-one codepoints, access at
the index succeeds with the codepoint decoded from that prefix, whatever
bytes follow; on a buffer whose full count is at most the index, access
throws StringIndexError; and access can throw EncodingError only when no
prefix of the buffer counts index-plus-one codepoints. -/
theorem c10_at_prefix_scan_only (buf : List Nat) (i : Nat) :
    (∀ p s, buf = p ++ s → utf8_codepoint_count p = Except.ok (i + 1) →
      ∃ cp, strAt buf i = Except.ok cp ∧ strAt p i = Except.ok cp)
    ∧ (∀ m, utf8_codepoint_count buf = Except.ok m → m ≤ i →
        strAt buf i = Except.error EspErr.stringIndexError)
    ∧ (strAt buf i = Except.error EspErr.encodingError →
        ¬ ∃ p s, buf = p ++ s ∧ utf8_codepoint_count p = Except.ok (i + 1)) := by
  refine ⟨?_, ?_, ?_⟩
  · intro p s hbuf hcount
    subst hbuf
    obtain ⟨heq, cp, hcp⟩ :=
      (strAt_count_aux p.length p (le_refl _) (i + 1) hcount i s).1 (by omega)
    exact ⟨cp, by rw [heq, hcp], hcp⟩
  · intro m hcount hmi
    exact (strAt_count_aux buf.length buf (le_refl _) m hcount i []).2 hmi
  · rintro herr ⟨p, s, hbuf, hcount⟩
    subst hbuf
    obtain ⟨heq, cp, hcp⟩ :=
      (strAt_count_aux p.length p (le_refl _) (i + 1) hcount i s).1 (by omega)
    rw [heq, hcp] at herr
    cases herr

/-- Witness for C10: the buffer with a valid first byte and a malformed
second byte still serves index zero. -/
theorem c10_at_prefix_scan_only_witness :
    ∃ cp, strAt [0x61, 0xFF] 0 = Except.ok cp ∧ strAt [0x61] 0 = Except.ok cp :=
  (c10_at_prefix_scan_only [0x61, 0xFF] 0).1 [0x61] [0xFF] rfl
    (by simp +decide [utf8_codepoint_count])

/-- Integral restriction of the add-sub roundtrip of the spec (section 8):
when checked addition of in-range integral operands succeeds, checked
subtraction of the second operand from the sum restores the first operand
exactly.  The floating half of that spec sentence is outside this
embedding. -/
lemma numAdd_numSub_roundtrip (R : IntRep) (hb : 0 < R.bits) (a b s : Int)
    (ha : R.inRange a) (hbr : R.inRange b)
    (hadd : numAdd R a b = Except.ok s) : numSub R s b = Except.ok a := by
  unfold numAdd at hadd
  by_cases hov : add_overflow R a b = true
  · rw [if_pos hov] at hadd; cases hadd
  · rw [if_neg (by simp [hov])] at hadd
    have hnocond : ¬ ((0 < b ∧ R.maxVal - b < a) ∨ (b < 0 ∧ a < R.minVal - b)) :=
      fun hc => hov ((add_overflow_iff R a b).mpr hc)
    have hrange := add_in_range R ha hbr hnocond
    rw [R.wrap_eq_self hb hrange] at hadd
    obtain rfl : a + b = s := by cases hadd; rfl
    unfold numSub
    obtain ⟨ha1, ha2⟩ := ha
    obtain ⟨hb1, hb2⟩ := hbr
    have hsubov : ¬ (sub_overflow R (a + b) b = true) := by
      unfold sub_overflow
      rw [if_neg (by omega), if_neg (by omega)]
      simp
    rw [if_neg (by simp [hsubov])]
    have : R.inRange (a + b - b) := by
      constructor <;> omega
    rw [R.wrap_eq_self hb this]
    congr 1
    omega
